import Mathlib

/-!
Verification of the vite Go library (manifest resolution, HTML tag
generation, mode resolution and the request dispatcher) against its
natural-language specification.

The Go sources are embedded shallowly:

* `Chunk` / `Manifest` mirror `manifest.go` (`Manifest map[string]*Chunk`
  becomes an association list; Go map lookup becomes `List.lookup`).
* The recursive closures `addCSS` / `addModulePreload` inside
  `Manifest.GenerateCSS` / `Manifest.GeneratePreloadModules` share one
  traversal skeleton that differs only in the per-chunk emission; the
  skeleton is embedded once as `visitImports` with the emission as a
  parameter.  Go's unbounded recursion becomes fuel-indexed recursion;
  the generators run it with fuel `m.length + 1`, and fuel-independence
  beyond that bound is proved (`visitTrace_stable`), which is the
  termination statement of the original recursion.
* File systems (`io/fs.FS`) are abstracted to the only facts the code
  observes about them: whether `Open` succeeds on a path and, for the
  manifest file, what `ParseManifest` (external JSON decoding) yields.
  So `FSModel := String → Option (Option Manifest)`: `none` = open
  fails, `some none` = opens but does not parse, `some (some m)` =
  opens and parses to `m`.
* `html/template` execution, `net/http` plumbing, request metadata from
  `context.Context` and `path.Clean` are external collaborators; the
  dispatcher and page render are modelled up to the data they hand to
  those collaborators (`PageData`, the chosen dispatch step), and the
  dispatcher takes the already-cleaned request path as input.
* Go `panic` (in `RegisterTemplate`, and on a nil filesystem) is
  modelled as the `Except.error` outcome, since the spec's error
  taxonomy treats it as the fatal duplicate-registration error.
-/

/-- A single entry in the manifest (`manifest.go`, type `Chunk`). -/
structure Chunk where
  file : String
  name : String
  src : String
  css : List String
  isDynamicEntry : Bool
  isEntry : Bool
  importList : List String
  dynamicImports : List String
  deriving Repr, DecidableEq

/-- The Vite build manifest (`manifest.go`, `Manifest map[string]*Chunk`).
Modelled as an association list from source-file key to chunk; Go map
lookup is `List.lookup` (keys of a Go map are unique, and all proofs
below hold for arbitrary association lists). -/
abbrev Manifest := List (String × Chunk)

/-- `Manifest.GetChunk` (`manifest.go`): direct lookup by source-file name. -/
def Manifest.GetChunk (m : Manifest) (name : String) : Option Chunk :=
  List.lookup name m

/-- `Manifest.GetEntryPoint` (`manifest.go`): some chunk with `IsEntry`
set, or `none`.  Go map iteration order is unspecified; the model uses
association-list order, one admissible iteration order. -/
def Manifest.GetEntryPoint (m : Manifest) : Option Chunk :=
  (m.map Prod.snd).find? (fun chunk => chunk.isEntry)

/-- `Manifest.GetEntryPoints` (`manifest.go`): all chunks with `IsEntry`
set, in iteration order (modelled as association-list order). -/
def Manifest.GetEntryPoints (m : Manifest) : List Chunk :=
  (m.map Prod.snd).filter (fun chunk => chunk.isEntry)

/-- The stylesheet link tags a single visited chunk contributes in
`Manifest.GenerateCSS` (`manifest.go`): one
`<link rel="stylesheet" href="{prefix}/{css}">` per entry of the
chunk's `CSS` slice, in order. -/
def cssLinkTags (pre : String) : List String → String
  | [] => ""
  | css :: rest =>
      "<link rel=\"stylesheet\" href=\"" ++ pre ++ "/" ++ css ++ "\">" ++ cssLinkTags pre rest

/-- Per-chunk emission of `Manifest.GenerateCSS`: the chunk's CSS link tags. -/
def cssEmit (pre : String) (chunk : Chunk) : String :=
  cssLinkTags pre chunk.css

/-- Per-chunk emission of `Manifest.GeneratePreloadModules`
(`manifest.go`): one `<link rel="modulepreload" href="{prefix}/{file}">`
if the chunk's `File` is non-empty, else nothing. -/
def preloadLinkTag (pre : String) (chunk : Chunk) : String :=
  if chunk.file != "" then
    "<link rel=\"modulepreload\" href=\"" ++ pre ++ "/" ++ chunk.file ++ "\">"
  else ""

/-- The mutable state threaded through the recursive closures in
`Manifest.GenerateCSS` / `Manifest.GeneratePreloadModules`
(`manifest.go`): the `seen` set (as the list of marked names) and the
`strings.Builder` output. -/
structure GenState where
  seen : List String
  out : String
  deriving Repr

/-- The shared body of the recursive closures `addCSS`
(`manifest.go:91-113`) and `addModulePreload` (`manifest.go:149-171`):
if `name` is already seen, stop; mark it; look it up, stopping silently
if absent; append this chunk's emission (`emit`); recurse over the
chunk's `Imports` in order.  The two closures differ only in `emit`.
Fuel replaces Go's unbounded recursion; `visitTrace_stable` below shows
`m.length + 1` fuel is never exhausted. -/
def visitImports (m : Manifest) (emit : Chunk → String) : Nat → String → GenState → GenState
  | 0, _, s => s
  | fuel + 1, name, s =>
      if s.seen.contains name then s
      else
        let s1 : GenState := { s with seen := name :: s.seen }
        match List.lookup name m with
        | none => s1
        | some chunk =>
            let s2 : GenState := { s1 with out := s1.out ++ emit chunk }
            chunk.importList.foldl (fun t imp => visitImports m emit fuel imp t) s2

/-- `Manifest.GenerateCSS` (`manifest.go:86-118`): depth-first walk over
`Imports` from `name`, collecting stylesheet link tags. -/
def Manifest.GenerateCSS (m : Manifest) (name pre : String) : String :=
  (visitImports m (cssEmit pre) (m.length + 1) name ⟨[], ""⟩).out

/-- `Manifest.GeneratePreloadModules` (`manifest.go:144-176`): the same
walk, collecting one modulepreload link tag per visited chunk with a
non-empty `File`. -/
def Manifest.GeneratePreloadModules (m : Manifest) (name pre : String) : String :=
  (visitImports m (preloadLinkTag pre) (m.length + 1) name ⟨[], ""⟩).out

/-- `Manifest.GenerateModules` (`manifest.go:123-139`): non-recursive;
one module script tag for the root chunk's `File` if the chunk exists
and its file is non-empty, else the empty string. -/
def Manifest.GenerateModules (m : Manifest) (name pre : String) : String :=
  match List.lookup name m with
  | none => ""
  | some chunk =>
      if chunk.file != "" then
        "<script type=\"module\" src=\"" ++ pre ++ "/" ++ chunk.file ++ "\"></script>"
      else ""

/-- Reference trace of the traversal shared by `Manifest.GenerateCSS` and
`Manifest.GeneratePreloadModules`: the same recursion as `visitImports`,
but computing the list of marked names in visit order (first component)
and the final seen list (second component) instead of the emitted string. -/
def visitTrace (m : Manifest) : Nat → String → List String → List String × List String
  | 0, _, seen => ([], seen)
  | fuel + 1, name, seen =>
      if seen.contains name then ([], seen)
      else
        match List.lookup name m with
        | none => ([name], name :: seen)
        | some chunk =>
            chunk.importList.foldl
              (fun acc imp =>
                (acc.1 ++ (visitTrace m fuel imp acc.2).1, (visitTrace m fuel imp acc.2).2))
              ([name], name :: seen)

/-- One step of the fold over a chunk's imports inside `visitTrace`. -/
def traceStep (m : Manifest) (fuel : Nat) (acc : List String × List String)
    (imp : String) : List String × List String :=
  (acc.1 ++ (visitTrace m fuel imp acc.2).1, (visitTrace m fuel imp acc.2).2)

/-- The string a single visited name contributes: the per-chunk emission
if the name resolves in the manifest, nothing otherwise. -/
def emitName (m : Manifest) (emit : Chunk → String) (k : String) : String :=
  match List.lookup k m with
  | some c => emit c
  | none => ""

/-- Concatenated emission over a list of visited names. -/
def emitJoin (m : Manifest) (emit : Chunk → String) : List String → String
  | [] => ""
  | k :: ks => emitName m emit k ++ emitJoin m emit ks

/-- The visit order of the generators' depth-first traversal rooted at
`root`: root first, then each import's subtree in `Imports` order
(by construction of `visitTrace`), run at the generators' fuel. -/
def Manifest.visitOrder (m : Manifest) (root : String) : List String :=
  (visitTrace m (m.length + 1) root []).1

/-- The manifest keys (Go map keys are unique; `dedup` makes the model's
key list duplicate-free also for degenerate association lists). -/
def manifestKeys (m : Manifest) : List String :=
  (m.map Prod.fst).dedup

/-- The manifest keys not yet marked: the termination measure of the
generators' recursion. -/
def freshKeys (m : Manifest) (seen : List String) : List String :=
  (manifestKeys m).filter (fun k => !seen.contains k)

/-- One `imports` edge: `a`'s chunk exists and lists `b` among its
static imports. -/
def importStep (m : Manifest) (a b : String) : Prop :=
  ∃ c, List.lookup a m = some c ∧ b ∈ c.importList

/-- Reachability from `a` along `imports` edges. -/
def Reaches (m : Manifest) (a b : String) : Prop :=
  Relation.ReflTransGen (importStep m) a b

/-- `Scaffolding` (`config.go`): `type Scaffolding int`. -/
abbrev Scaffolding := Int

def React : Scaffolding := 1
def ReactTs : Scaffolding := 2
def ReactSwc : Scaffolding := 3
def ReactSwcTs : Scaffolding := 4
def Vanilla : Scaffolding := 5
def VanillaTs : Scaffolding := 6
def Vue : Scaffolding := 7
def VueTs : Scaffolding := 8
def Preact : Scaffolding := 9
def PreactTs : Scaffolding := 10
def Lit : Scaffolding := 11
def LitTs : Scaffolding := 12
def Svelte : Scaffolding := 13
def SvelteTs : Scaffolding := 14
def Solid : Scaffolding := 15
def SolidTs : Scaffolding := 16
def Qwik : Scaffolding := 17
def QwikTs : Scaffolding := 18
def NoScaffolding : Scaffolding := 19

/-- Models `net/url.JoinPath` (external standard library): joining a base
URL and a path, simplified to concatenation.  No claim inspects the
joined URL, only whether the surrounding fragment depends on anything
besides the configuration. -/
def urlJoinPath (base p : String) : String :=
  base ++ p

/-- `PluginReactPreamble` (`manifest.go:72-81`): the React Fast Refresh
bootstrap script pointing at the dev server. -/
def PluginReactPreamble (server : String) : String :=
  "<script type=\"module\">\n  import RefreshRuntime from \x27"
    ++ urlJoinPath server "/@react-refresh"
    ++ "\x27\n  RefreshRuntime.injectIntoGlobalHook(window)\n  window.$RefreshReg$ = () => \x7b\x7d\n  window.$RefreshSig$ = () => (type) => type\n  window.__vite_plugin_react_preamble_installed__ = true\n</script>"

/-- `Scaffolding.RequiresPreamble` (`config.go`): only the React
scaffolding variants need the Fast Refresh preamble. -/
def Scaffolding.RequiresPreamble (s : Scaffolding) : Bool :=
  if s == React then true
  else if s == ReactTs then true
  else if s == ReactSwc then true
  else if s == ReactSwcTs then true
  else false

/-- `Scaffolding.Preamble` (`config.go`): the preamble string for the
scaffolding, empty for non-React variants. -/
def Scaffolding.Preamble (s : Scaffolding) (viteURL : String) : String :=
  if s == React then PluginReactPreamble viteURL
  else if s == ReactTs then PluginReactPreamble viteURL
  else if s == ReactSwc then PluginReactPreamble viteURL
  else if s == ReactSwcTs then PluginReactPreamble viteURL
  else ""

/-- Abstraction of an `io/fs.FS` handle, reduced to the only facts the
embedded code observes: whether `Open` succeeds on a path, and what
`ParseManifest` (external JSON decoding, `manifest.go:33-39`) would
yield for the opened file.  `none` = open fails; `some none` = opens but
fails to parse as a manifest; `some (some m)` = opens and parses to `m`. -/
def FSModel := String → Option (Option Manifest)

/-- `Config` (`config.go`).  `fs` is `Option` so the nil-check in
`NewHandler` is expressible.  There is no asset-URL-prefix field: the
source `Config` exposes none. -/
structure Config where
  fs : Option FSModel
  publicFS : Option FSModel
  isDev : Bool
  viteEntry : String
  viteURL : String
  viteManifest : String
  viteTemplate : Scaffolding

/-- `pageData` (`handler.go:171-181`).  `metadata` and `scripts` are
filled from request-context values (`context.go`, an external
collaborator) and stay empty in the construction-level models here. -/
structure PageData where
  isDev : Bool
  viteEntry : String
  viteURL : String
  metadata : String
  pluginReactPreamble : String
  styleSheets : String
  modules : String
  preloadModules : String
  scripts : String
  deriving Repr, DecidableEq

/-- `Handler` (`handler.go:14-28`).  The `http.FileSystem` / `http.Handler`
pairs derived from the same `fs.FS` are collapsed into the one `FSModel`
they wrap (`pub = none` models the nil `pubFS`/`pubHandler`).  Template
values are kept as their source text; compiling them (`html/template`)
is external. -/
structure Handler where
  fs : FSModel
  pub : Option FSModel
  manifest : Option Manifest
  isDev : Bool
  viteEntry : String
  viteURL : String
  viteTemplate : Scaffolding
  templates : List (String × String)

/-- `fallbackTemplateName` (`handler.go:306`). -/
def fallbackTemplateName : String := "fallback.html"

/-- `fallbackHTML` (`handler.go:309-343`), the fallback page template
registered at construction (template-language braces escaped). -/
def fallbackHTML : String :=
  "<!doctype html>\n<html lang=\"en\" class=\"h-full scroll-smooth\">\n  <head>\n    <meta charset=\"UTF-8\" />\n"
    ++ "\t\x7b\x7b- if .Metadata \x7d\x7d\n\t\t\x7b\x7b .Metadata \x7d\x7d\n\t\x7b\x7b- end \x7d\x7d\n"
    ++ "\t\x7b\x7b- if .IsDev \x7d\x7d\n\t\t\x7b\x7b .PluginReactPreamble \x7d\x7d\n"
    ++ "\t\t<script type=\"module\" src=\"\x7b\x7b .ViteURL \x7d\x7d/@vite/client\"></script>\n"
    ++ "\t\t\x7b\x7b- if ne .ViteEntry \"\" \x7d\x7d\n\t\t\t<script type=\"module\" src=\"\x7b\x7b .ViteURL \x7d\x7d/\x7b\x7b .ViteEntry \x7d\x7d\"></script>\n"
    ++ "\t\t\x7b\x7b- else \x7d\x7d\n\t\t\t<script type=\"module\" src=\"\x7b\x7b .ViteURL \x7d\x7d/src/main.tsx\"></script>\n\t\t\x7b\x7b- end \x7d\x7d\n"
    ++ "\t\x7b\x7b- else \x7d\x7d\n\t\t\x7b\x7b- if .StyleSheets \x7d\x7d\n\t\t\x7b\x7b .StyleSheets \x7d\x7d\n\t\t\x7b\x7b- end \x7d\x7d\n"
    ++ "\t\t\x7b\x7b- if .Modules \x7d\x7d\n\t\t\x7b\x7b .Modules \x7d\x7d\n\t\t\x7b\x7b- end \x7d\x7d\n"
    ++ "\t\t\x7b\x7b- if .PreloadModules \x7d\x7d\n\t\t\x7b\x7b .PreloadModules \x7d\x7d\n\t\t\x7b\x7b- end \x7d\x7d\n"
    ++ "\t\x7b\x7b- end \x7d\x7d\n\t\x7b\x7b- if .Scripts \x7d\x7d\n\t\t\x7b\x7b .Scripts \x7d\x7d\n\t\x7b\x7b- end \x7d\x7d\n"
    ++ " </head>\n  <body class=\"min-h-screen antialiased\">\n    <div id=\"root\"></div>\n  </body>\n</html>\n"

/-- Models `fs.Sub(fsm, dir)` (external standard library): the
sub-filesystem rooted at `dir`.  `fs.Sub` only errors on an invalid
directory name, which the fixed literal `"public"` is not, so the error
branch (which would leave `pub` nil) is not represented. -/
def fsSub (fsm : FSModel) (dir : String) : FSModel :=
  fun p => fsm (dir ++ "/" ++ p)

/-- `NewHandler` (`handler.go:36-98`).  Production mode opens and parses
the manifest at the configured relative path (default
`.vite/manifest.json`); development mode applies the dev-server URL
default and wires the public filesystem, touching no manifest. -/
def NewHandler (config : Config) : Except String Handler :=
  match config.fs with
  | none => .error "vite: fs is nil"
  | some cfs =>
      let h : Handler :=
        { fs := cfs, pub := none, manifest := none,
          isDev := config.isDev, viteEntry := config.viteEntry,
          viteURL := config.viteURL, viteTemplate := config.viteTemplate,
          templates := [(fallbackTemplateName, fallbackHTML)] }
      if !h.isDev then
        let viteManifest :=
          if config.viteManifest == "" then ".vite/manifest.json" else config.viteManifest
        match cfs viteManifest with
        | none => .error "vite: open manifest"
        | some none => .error "vite: parse manifest"
        | some (some mf) => .ok { h with manifest := some mf }
      else
        let h := { h with viteURL := if h.viteURL == "" then "http://localhost:5173" else h.viteURL }
        match config.publicFS with
        | none => .ok { h with pub := some (fsSub cfs "public") }
        | some pfs => .ok { h with pub := some pfs }

/-- `Handler.RegisterTemplate` (`handler.go:115-123`).  The Go method
panics on a duplicate name; the panic is modelled as the `.error`
outcome (the spec's fatal duplicate-registration error), and the update
as returning the extended handler.  The nil-map guard of the source is
vacuous here (the model's template list is always present). -/
def Handler.RegisterTemplate (h : Handler) (name text : String) : Except String Handler :=
  if (List.lookup name h.templates).isSome then
    .error ("vite: template already registered: " ++ name)
  else
    .ok { h with templates := (name, text) :: h.templates }

/-- The entry-chunk resolution block shared verbatim by
`Handler.renderPage` (`handler.go:229-240`) and `HTMLFragment`
(`fragment.go:67-78`): the arbitrary entry point when no entry is
requested, otherwise the entry chunk whose `Src` equals the requested
entry. -/
def resolveEntryChunk (m : Manifest) (viteEntry : String) : Option Chunk :=
  if viteEntry == "" then m.GetEntryPoint
  else m.GetEntryPoints.find? (fun entry => viteEntry == entry.src)

/-- Outcome of `Handler.renderPage` up to template execution: either the
500 response sent on chunk-resolution failure, or the page data handed
to the (external) template engine.  The subsequent template-name
variants and `tmpl.Execute` (`handler.go:252-303`) consume this value. -/
inductive RenderOutcome
  | internalServerError
  | rendered (pd : PageData)
  deriving Repr, DecidableEq

/-- `Handler.renderPage` (`handler.go:184-304`) up to template execution.
Request-context metadata/scripts are external and left empty.  In
production a nil stored manifest (impossible for handlers built by
`NewHandler` in production mode) would be a nil-pointer panic in Go and
is mapped to the error outcome. -/
def Handler.renderPage (h : Handler) (chunk0 : Option Chunk) : RenderOutcome :=
  let page : PageData :=
    { isDev := h.isDev, viteEntry := h.viteEntry, viteURL := h.viteURL,
      metadata := "", pluginReactPreamble := "", styleSheets := "",
      modules := "", preloadModules := "", scripts := "" }
  if h.isDev then
    let preamble :=
      if h.viteTemplate < 1 then Scaffolding.Preamble React h.viteURL
      else if h.viteTemplate.RequiresPreamble then Scaffolding.Preamble h.viteTemplate h.viteURL
      else ""
    .rendered { page with pluginReactPreamble := preamble }
  else
    match h.manifest with
    | none => .internalServerError
    | some m =>
        let chunk :=
          match chunk0 with
          | some c => some c
          | none => resolveEntryChunk m h.viteEntry
        match chunk with
        | none => .internalServerError
        | some c =>
            let assetsPrefix := ""
            .rendered { page with
              styleSheets := m.GenerateCSS c.src assetsPrefix,
              modules := m.GenerateModules c.src assetsPrefix,
              preloadModules := m.GeneratePreloadModules c.src assetsPrefix }

/-- The terminal step chosen by the dispatcher for one request. -/
inductive DispatchOutcome
  | servedPublic
  | page (outcome : RenderOutcome)
  | servedStatic
  | notFound
  deriving Repr, DecidableEq

/-- Whether the public filesystem is configured and opens `p`
(`handler.go:138-139`). -/
def Handler.pubOpens (h : Handler) (p : String) : Bool :=
  match h.pub with
  | some pfs => (pfs p).isSome
  | none => false

/-- `Handler.ServeHTTP` (`handler.go:131-168`).  `path` is the request
path after `path.Clean` (external).  Order: dev-mode public-filesystem
hit, index render, registered-template render, main-filesystem static
file, 404. -/
def Handler.serveHTTP (h : Handler) (path : String) : DispatchOutcome :=
  let isIndexPath := path == "/" || path == "/index.html"
  if h.isDev && h.pub.isSome && !isIndexPath && h.pubOpens path then
    .servedPublic
  else if isIndexPath then
    .page (h.renderPage none)
  else if (List.lookup path h.templates).isSome then
    .page (h.renderPage none)
  else if (h.fs path).isSome then
    .servedStatic
  else
    .notFound

/-- `HTMLFragment` (`fragment.go:35-107`) up to the final execution of
`htmlTmpl` (external template engine) on the returned page data.  In
production it opens the manifest at the hard-coded path
`".vite/manifest.json"` (`fragment.go:56`) — `Config.ViteManifest` is
not consulted — parses it, resolves the entry chunk and generates the
three tag groups.  A nil `Config.FS` would be a nil-pointer panic in Go,
mapped to the error outcome. -/
def HTMLFragment (config : Config) : Except String PageData :=
  let pd : PageData :=
    { isDev := config.isDev, viteEntry := config.viteEntry, viteURL := config.viteURL,
      metadata := "", pluginReactPreamble := "", styleSheets := "",
      modules := "", preloadModules := "", scripts := "" }
  if config.isDev then
    let preamble :=
      if config.viteTemplate < 1 then Scaffolding.Preamble React config.viteURL
      else if config.viteTemplate.RequiresPreamble then Scaffolding.Preamble config.viteTemplate config.viteURL
      else ""
    .ok { pd with pluginReactPreamble := preamble }
  else
    match config.fs with
    | none => .error "vite: nil filesystem"
    | some cfs =>
        match cfs ".vite/manifest.json" with
        | none => .error "vite: open manifest"
        | some none => .error "vite: parse manifest"
        | some (some m) =>
            match resolveEntryChunk m config.viteEntry with
            | none => .error "vite: new page data: unable to parse manifest"
            | some chunk =>
                .ok { pd with
                  styleSheets := m.GenerateCSS chunk.src "",
                  modules := m.GenerateModules chunk.src "",
                  preloadModules := m.GeneratePreloadModules chunk.src "" }

/-- Stylesheet link tags as the spec words them for the handler's empty
prefix: href is exactly `/` followed by the manifest-declared output
path.  Comparison definition for the prefix claims, written from the
spec, to be proved equal to the source emission at prefix `""`. -/
def cssLinkTagsSlash : List String → String
  | [] => ""
  | css :: rest => "<link rel=\"stylesheet\" href=\"/" ++ css ++ "\">" ++ cssLinkTagsSlash rest

/-- Modulepreload tag with href exactly `/` ++ file (spec wording for the
handler's empty prefix). -/
def preloadLinkTagSlash (chunk : Chunk) : String :=
  if chunk.file != "" then "<link rel=\"modulepreload\" href=\"/" ++ chunk.file ++ "\">" else ""

/-- Module script tag with src exactly `/` ++ file (spec wording for the
handler's empty prefix). -/
def moduleTagSlash (chunk : Chunk) : String :=
  if chunk.file != "" then "<script type=\"module\" src=\"/" ++ chunk.file ++ "\"></script>" else ""

/-- Replaces every chunk's import list (used to state that
`GenerateModules` never traverses imports). -/
def setAllImports (m : Manifest) (l : List String) : Manifest :=
  m.map (fun p => (p.1, { p.2 with importList := l }))

/-! Concrete fixtures for the claim instances and witnesses. -/

/-- Chunk `a.js` of the spec's worked example. -/
def chunkA : Chunk :=
  { file := "out/a.js", name := "", src := "a.js", css := [],
    isDynamicEntry := false, isEntry := true,
    importList := ["b.js"], dynamicImports := [] }

/-- Chunk `b.js` of the spec's worked example. -/
def chunkB : Chunk :=
  { file := "out/b.js", name := "", src := "b.js", css := ["out/b.css"],
    isDynamicEntry := false, isEntry := false,
    importList := [], dynamicImports := [] }

/-- The spec's worked-example manifest. -/
def manifestAB : Manifest := [("a.js", chunkA), ("b.js", chunkB)]

/-- Entry chunk with empty `file` and no CSS (fixture: emits nothing). -/
def chunkR : Chunk :=
  { file := "", name := "", src := "r.js", css := [],
    isDynamicEntry := false, isEntry := true,
    importList := ["mid.js"], dynamicImports := [] }

/-- Middle chunk with empty `file` and no CSS but one further import. -/
def chunkMid : Chunk :=
  { file := "", name := "", src := "mid.js", css := [],
    isDynamicEntry := false, isEntry := false,
    importList := ["leaf.js"], dynamicImports := [] }

/-- Leaf chunk with a file and a stylesheet, reachable only through
`chunkMid`. -/
def chunkLeaf : Chunk :=
  { file := "out/leaf.js", name := "", src := "leaf.js", css := ["out/leaf.css"],
    isDynamicEntry := false, isEntry := false,
    importList := [], dynamicImports := [] }

/-- Manifest whose root and middle chunks emit no tags of their own. -/
def manifestRML : Manifest :=
  [("r.js", chunkR), ("mid.js", chunkMid), ("leaf.js", chunkLeaf)]

/-- Filesystem with a valid manifest at the default path only. -/
def fsDefaultManifest : FSModel :=
  fun p => if p == ".vite/manifest.json" then some (some manifestAB) else none

/-- Production handler whose requested entry matches no entry chunk. -/
def handlerC3 : Handler :=
  { fs := fun _ => none, pub := none, manifest := some manifestAB,
    isDev := false, viteEntry := "missing.js", viteURL := "",
    viteTemplate := 0, templates := [(fallbackTemplateName, fallbackHTML)] }

/-- Production configuration requesting an entry that no entry chunk has
as its `src`. -/
def configC3 : Config :=
  { fs := some fsDefaultManifest, publicFS := none, isDev := false,
    viteEntry := "missing.js", viteURL := "", viteManifest := "",
    viteTemplate := 0 }

/-- Filesystem opening exactly one path, `/logo.png`. -/
def fsLogo : FSModel :=
  fun p => if p == "/logo.png" then some none else none

/-- Development handler whose public filesystem and main filesystem both
contain `/logo.png`. -/
def handlerC4 : Handler :=
  { fs := fsLogo, pub := some fsLogo, manifest := none,
    isDev := true, viteEntry := "", viteURL := "http://localhost:5173",
    viteTemplate := 0, templates := [(fallbackTemplateName, fallbackHTML)] }

/-- Handler fresh from dev-mode construction (only the fallback template). -/
def handlerC8 : Handler :=
  { fs := fun _ => none, pub := none, manifest := none,
    isDev := true, viteEntry := "", viteURL := "http://localhost:5173",
    viteTemplate := 0, templates := [(fallbackTemplateName, fallbackHTML)] }

/-- The handler after a first successful registration of `index.html`. -/
def handlerC8' : Handler :=
  { handlerC8 with templates := ("index.html", "AAA") :: handlerC8.templates }

/-- Development-mode configuration (fs left for the claim to vary). -/
def configC7 : Config :=
  { fs := none, publicFS := none, isDev := true,
    viteEntry := "src/main.tsx", viteURL := "", viteManifest := "",
    viteTemplate := 0 }

/-- Filesystem where every open fails. -/
def fsEmptyFS : FSModel := fun _ => none

/-- Filesystem where every path opens (but parses as no manifest). -/
def fsAllOpen : FSModel := fun _ => some none

/-- Filesystem with a valid manifest only at the non-default path
`custom/manifest.json`. -/
def fsCustomOnly : FSModel :=
  fun p => if p == "custom/manifest.json" then some (some manifestAB) else none

/-- Production configuration with a configured non-default manifest path. -/
def configCustom : Config :=
  { fs := some fsCustomOnly, publicFS := none, isDev := false,
    viteEntry := "", viteURL := "", viteManifest := "custom/manifest.json",
    viteTemplate := 0 }

/-- Production handler over the worked-example manifest with entry `a.js`. -/
def handlerC10 : Handler :=
  { fs := fun _ => none, pub := none, manifest := some manifestAB,
    isDev := false, viteEntry := "a.js", viteURL := "",
    viteTemplate := 0, templates := [(fallbackTemplateName, fallbackHTML)] }

/-- The page data `handlerC10` renders. -/
def pageC10 : PageData :=
  { isDev := false, viteEntry := "a.js", viteURL := "", metadata := "",
    pluginReactPreamble := "",
    styleSheets := manifestAB.GenerateCSS "a.js" "",
    modules := manifestAB.GenerateModules "a.js" "",
    preloadModules := manifestAB.GeneratePreloadModules "a.js" "",
    scripts := "" }

/-! Traversal theory: properties of `visitTrace` and `visitImports`. -/

theorem mem_of_contains {l : List String} {a : String}
    (h : l.contains a = true) : a ∈ l :=
  List.elem_iff.mp h

theorem contains_of_mem {l : List String} {a : String}
    (h : a ∈ l) : l.contains a = true :=
  List.elem_iff.mpr h

theorem visitTrace_succ (m : Manifest) (fuel : Nat) (name : String) (seen : List String) :
    visitTrace m (fuel + 1) name seen =
      if seen.contains name then ([], seen)
      else
        match List.lookup name m with
        | none => ([name], name :: seen)
        | some chunk => chunk.importList.foldl (traceStep m fuel) ([name], name :: seen) :=
  rfl

theorem lookup_mem_manifestKeys {m : Manifest} {name : String} {c : Chunk}
    (h : List.lookup name m = some c) : name ∈ manifestKeys m := by
  rw [manifestKeys, List.mem_dedup]
  induction m with
  | nil => simp [List.lookup] at h
  | cons p rest ih =>
      obtain ⟨k, v⟩ := p
      rw [List.lookup_cons] at h
      by_cases hb : (name == k) = true
      · exact List.mem_map.mpr ⟨(k, v), List.mem_cons_self _ _, (eq_of_beq hb).symm⟩
      · rw [Bool.not_eq_true] at hb
        simp only [hb] at h
        exact List.mem_cons_of_mem _ (ih h)

theorem freshKeys_length_le {m : Manifest} {seen seen' : List String}
    (h : ∀ x, x ∈ seen → x ∈ seen') :
    (freshKeys m seen').length ≤ (freshKeys m seen).length := by
  refine List.Sublist.length_le (List.monotone_filter_right _ ?_)
  intro a ha
  simp only [Bool.not_eq_true', ← Bool.not_eq_true] at ha ⊢
  exact fun hmem => ha (contains_of_mem (h a (mem_of_contains hmem)))

theorem freshKeys_cons_length_lt {m : Manifest} {seen : List String} {k : String}
    (hk : k ∈ manifestKeys m) (hns : k ∉ seen) :
    (freshKeys m (k :: seen)).length < (freshKeys m seen).length := by
  have hcons : freshKeys m (k :: seen)
      = (freshKeys m seen).filter (fun a => !(a == k)) := by
    rw [freshKeys, freshKeys, List.filter_filter]
    refine List.filter_congr ?_
    intro a _
    show (!(k :: seen).contains a) = (!(a == k) && !seen.contains a)
    show (!(a == k || seen.contains a)) = _
    rw [Bool.not_or]
  rw [hcons]
  refine List.length_filter_lt_length_iff_exists.mpr ⟨k, ?_, by simp⟩
  exact List.mem_filter.mpr ⟨hk, by simp [hns, contains_of_mem, List.elem_iff]⟩

theorem freshKeys_nil_length_le (m : Manifest) :
    (freshKeys m []).length ≤ m.length := by
  calc (freshKeys m []).length
      ≤ (manifestKeys m).length := (List.filter_sublist _).length_le
    _ ≤ (m.map Prod.fst).length := (List.dedup_sublist _).length_le
    _ = m.length := List.length_map _ _

theorem traceFold_fst (m : Manifest) (fuel : Nat) :
    ∀ (l : List String) (ts seen : List String),
      List.foldl (traceStep m fuel) (ts, seen) l
        = (ts ++ (List.foldl (traceStep m fuel) ([], seen) l).1,
           (List.foldl (traceStep m fuel) ([], seen) l).2) := by
  intro l
  induction l with
  | nil => intro ts seen; simp
  | cons imp rest ih =>
      intro ts seen
      rw [List.foldl_cons, List.foldl_cons]
      show List.foldl _ (traceStep m fuel (ts, seen) imp) rest = _
      rw [traceStep]
      rw [ih (ts ++ (visitTrace m fuel imp seen).1) ((visitTrace m fuel imp seen).2)]
      have h2 : traceStep m fuel ([], seen) imp
          = ((visitTrace m fuel imp seen).1, (visitTrace m fuel imp seen).2) := by
        rw [traceStep]; simp
      rw [h2]
      rw [ih ((visitTrace m fuel imp seen).1) ((visitTrace m fuel imp seen).2)]
      simp [List.append_assoc]

theorem visitTrace_seen_mono (m : Manifest) :
    ∀ (fuel : Nat) (name : String) (seen : List String) (x : String),
      x ∈ seen → x ∈ (visitTrace m fuel name seen).2 := by
  intro fuel
  induction fuel with
  | zero => intro name seen x hx; exact hx
  | succ fuel ih =>
      intro name seen x hx
      rw [visitTrace_succ]
      by_cases hc : seen.contains name = true
      · simp only [hc, if_true]; exact hx
      · simp only [hc, if_false, Bool.false_eq_true]
        match hlk : List.lookup name m with
        | none => exact List.mem_cons_of_mem _ hx
        | some chunk =>
            have hfold : ∀ (l : List String) (acc : List String × List String),
                x ∈ acc.2 → x ∈ (List.foldl (traceStep m fuel) acc l).2 := by
              intro l
              induction l with
              | nil => intro acc h; exact h
              | cons imp rest ihl =>
                  intro acc h
                  rw [List.foldl_cons]
                  exact ihl _ (ih imp acc.2 x h)
            exact hfold _ _ (List.mem_cons_of_mem _ hx)

theorem visitTrace_name_mem (m : Manifest) (fuel : Nat) (name : String) (seen : List String) :
    name ∈ (visitTrace m (fuel + 1) name seen).2 := by
  rw [visitTrace_succ]
  by_cases hc : seen.contains name = true
  · simp only [hc, if_true]; exact mem_of_contains hc
  · simp only [hc, if_false, Bool.false_eq_true]
    match hlk : List.lookup name m with
    | none => exact List.mem_cons_self _ _
    | some chunk =>
        have hfold : ∀ (l : List String) (acc : List String × List String),
            name ∈ acc.2 → name ∈ (List.foldl (traceStep m fuel) acc l).2 := by
          intro l
          induction l with
          | nil => intro acc h; exact h
          | cons imp rest ihl =>
              intro acc h
              rw [List.foldl_cons]
              exact ihl _ (visitTrace_seen_mono m fuel imp acc.2 name h)
        exact hfold _ _ (List.mem_cons_self _ _)

theorem visitTrace_snd_eq (m : Manifest) :
    ∀ (fuel : Nat) (name : String) (seen : List String),
      (visitTrace m fuel name seen).2 = (visitTrace m fuel name seen).1.reverse ++ seen := by
  intro fuel
  induction fuel with
  | zero => intro name seen; simp [visitTrace]
  | succ fuel ih =>
      intro name seen
      rw [visitTrace_succ]
      by_cases hc : seen.contains name = true
      · rw [if_pos hc]; simp
      · rw [if_neg hc]
        cases hlk : List.lookup name m with
        | none => simp
        | some chunk =>
            have hfold : ∀ (l : List String) (sn : List String),
                (List.foldl (traceStep m fuel) ([], sn) l).2
                  = (List.foldl (traceStep m fuel) ([], sn) l).1.reverse ++ sn := by
              intro l
              induction l with
              | nil => intro sn; simp
              | cons imp rest ihl =>
                  intro sn
                  rw [List.foldl_cons]
                  have hstep : traceStep m fuel ([], sn) imp
                      = ((visitTrace m fuel imp sn).1, (visitTrace m fuel imp sn).2) := by
                    rw [traceStep]; simp
                  rw [hstep, traceFold_fst m fuel rest,
                    ihl ((visitTrace m fuel imp sn).2)]
                  rw [List.reverse_append, List.append_assoc, ih imp sn]
            show (List.foldl (traceStep m fuel) ([name], name :: seen) chunk.importList).2
              = (List.foldl (traceStep m fuel) ([name], name :: seen) chunk.importList).1.reverse
                  ++ seen
            rw [traceFold_fst m fuel chunk.importList, hfold chunk.importList (name :: seen)]
            simp [List.reverse_append, List.append_assoc]

theorem visitTrace_snd_nodup (m : Manifest) :
    ∀ (fuel : Nat) (name : String) (seen : List String),
      seen.Nodup → (visitTrace m fuel name seen).2.Nodup := by
  intro fuel
  induction fuel with
  | zero => intro name seen h; exact h
  | succ fuel ih =>
      intro name seen hnd
      rw [visitTrace_succ]
      by_cases hc : seen.contains name = true
      · rw [if_pos hc]; exact hnd
      · rw [if_neg hc]
        have hnotmem : name ∉ seen := fun hm => hc (contains_of_mem hm)
        have hcons : (name :: seen).Nodup := List.nodup_cons.mpr ⟨hnotmem, hnd⟩
        cases List.lookup name m with
        | none => exact hcons
        | some chunk =>
            have hfold : ∀ (l : List String) (ts sn : List String),
                sn.Nodup → (List.foldl (traceStep m fuel) (ts, sn) l).2.Nodup := by
              intro l
              induction l with
              | nil => intro ts sn h; exact h
              | cons imp rest ihl =>
                  intro ts sn h
                  rw [List.foldl_cons]
                  exact ihl _ _ (ih imp sn h)
            exact hfold _ _ _ hcons

theorem visitTrace_stable (m : Manifest) :
    ∀ (n : Nat) (seen : List String) (name : String) (f g : Nat),
      (freshKeys m seen).length ≤ n →
      (freshKeys m seen).length < f →
      (freshKeys m seen).length < g →
      visitTrace m f name seen = visitTrace m g name seen := by
  intro n
  induction n with
  | zero =>
      intro seen name f g hb hf hg
      cases f with
      | zero => exact absurd hf (Nat.not_lt_zero _)
      | succ f =>
          cases g with
          | zero => exact absurd hg (Nat.not_lt_zero _)
          | succ g =>
              rw [visitTrace_succ, visitTrace_succ]
              by_cases hc : seen.contains name = true
              · rw [if_pos hc, if_pos hc]
              · rw [if_neg hc, if_neg hc]
                cases hlk : List.lookup name m with
                | none => rfl
                | some chunk =>
                    have hk := lookup_mem_manifestKeys hlk
                    have hnotmem : name ∉ seen := fun hm => hc (contains_of_mem hm)
                    have hlt := freshKeys_cons_length_lt (m := m) hk hnotmem
                    omega
  | succ n ih =>
      intro seen name f g hb hf hg
      cases f with
      | zero => exact absurd hf (Nat.not_lt_zero _)
      | succ f =>
          cases g with
          | zero => exact absurd hg (Nat.not_lt_zero _)
          | succ g =>
              rw [visitTrace_succ, visitTrace_succ]
              by_cases hc : seen.contains name = true
              · rw [if_pos hc, if_pos hc]
              · rw [if_neg hc, if_neg hc]
                cases hlk : List.lookup name m with
                | none => rfl
                | some chunk =>
                    have hk := lookup_mem_manifestKeys hlk
                    have hnotmem : name ∉ seen := fun hm => hc (contains_of_mem hm)
                    have hlt := freshKeys_cons_length_lt (m := m) hk hnotmem
                    have hfold : ∀ (l : List String) (ts sn : List String),
                        (freshKeys m sn).length ≤ n →
                        (freshKeys m sn).length < f →
                        (freshKeys m sn).length < g →
                        List.foldl (traceStep m f) (ts, sn) l
                          = List.foldl (traceStep m g) (ts, sn) l := by
                      intro l
                      induction l with
                      | nil => intro ts sn _ _ _; rfl
                      | cons imp rest ihl =>
                          intro ts sn h1 h2 h3
                          rw [List.foldl_cons, List.foldl_cons]
                          have heq : visitTrace m f imp sn = visitTrace m g imp sn :=
                            ih sn imp f g h1 h2 h3
                          have hstep : traceStep m f (ts, sn) imp = traceStep m g (ts, sn) imp := by
                            rw [traceStep, traceStep, heq]
                          rw [hstep]
                          have hle : (freshKeys m (visitTrace m g imp sn).2).length
                              ≤ (freshKeys m sn).length :=
                            freshKeys_length_le (fun x hx => visitTrace_seen_mono m g imp sn x hx)
                          exact ihl (ts ++ (visitTrace m g imp sn).1) ((visitTrace m g imp sn).2)
                            (le_trans hle h1) (lt_of_le_of_lt hle h2) (lt_of_le_of_lt hle h3)
                    exact hfold chunk.importList [name] (name :: seen)
                      (by omega) (by omega) (by omega)

theorem traceFold_snd_mono (m : Manifest) (fuel : Nat) :
    ∀ (l : List String) (acc : List String × List String) (x : String),
      x ∈ acc.2 → x ∈ (List.foldl (traceStep m fuel) acc l).2 := by
  intro l
  induction l with
  | nil => intro acc x h; exact h
  | cons imp rest ihl =>
      intro acc x h
      rw [List.foldl_cons]
      exact ihl _ x (visitTrace_seen_mono m fuel imp acc.2 x h)

theorem visitTrace_fst_reaches (m : Manifest) :
    ∀ (fuel : Nat) (name : String) (seen : List String) (k : String),
      k ∈ (visitTrace m fuel name seen).1 → Reaches m name k := by
  intro fuel
  induction fuel with
  | zero => intro name seen k hk; simp [visitTrace] at hk
  | succ fuel ih =>
      intro name seen k hk
      rw [visitTrace_succ] at hk
      by_cases hc : seen.contains name = true
      · rw [if_pos hc] at hk; simp at hk
      · rw [if_neg hc] at hk
        cases hlk : List.lookup name m with
        | none =>
            rw [hlk] at hk
            simp at hk
            subst hk
            exact Relation.ReflTransGen.refl
        | some chunk =>
            rw [hlk] at hk
            have hfold : ∀ (l ts sn : List String),
                k ∈ (List.foldl (traceStep m fuel) (ts, sn) l).1 →
                k ∈ ts ∨ ∃ imp ∈ l, Reaches m imp k := by
              intro l
              induction l with
              | nil => intro ts sn h; exact Or.inl h
              | cons imp rest ihl =>
                  intro ts sn h
                  rw [List.foldl_cons] at h
                  rcases ihl (ts ++ (visitTrace m fuel imp sn).1)
                      ((visitTrace m fuel imp sn).2) h with hts | ⟨imp', hmem, hre⟩
                  · rcases List.mem_append.mp hts with h1 | h2
                    · exact Or.inl h1
                    · exact Or.inr ⟨imp, List.mem_cons_self _ _, ih imp sn k h2⟩
                  · exact Or.inr ⟨imp', List.mem_cons_of_mem _ hmem, hre⟩
            rcases hfold chunk.importList [name] (name :: seen) hk with h1 | ⟨imp, hmem, hre⟩
            · have hkn : k = name := by simpa using h1
              subst hkn
              exact Relation.ReflTransGen.refl
            · exact Relation.ReflTransGen.head ⟨chunk, hlk, hmem⟩ hre

theorem visitTrace_closed (m : Manifest) :
    ∀ (n fuel : Nat) (name : String) (seen : List String),
      (freshKeys m seen).length ≤ n →
      (freshKeys m seen).length < fuel →
      ∀ (a : String) (c : Chunk) (b : String),
        a ∈ (visitTrace m fuel name seen).1 →
        List.lookup a m = some c →
        b ∈ c.importList →
        b ∈ (visitTrace m fuel name seen).2 := by
  intro n
  induction n with
  | zero =>
      intro fuel name seen hb hf a c b ha hlkA hbimp
      cases fuel with
      | zero => exact absurd hf (Nat.not_lt_zero _)
      | succ fuel =>
          rw [visitTrace_succ] at ha ⊢
          by_cases hc : seen.contains name = true
          · rw [if_pos hc] at ha; simp at ha
          · rw [if_neg hc] at ha ⊢
            cases hlk : List.lookup name m with
            | none =>
                simp only [hlk] at ha
                simp at ha
                subst ha
                rw [hlkA] at hlk
                exact absurd hlk (by simp)
            | some chunk =>
                have hk := lookup_mem_manifestKeys hlk
                have hnm : name ∉ seen := fun hm => hc (contains_of_mem hm)
                have hlt := freshKeys_cons_length_lt (m := m) hk hnm
                omega
  | succ n ih =>
      intro fuel name seen hb hf a c b ha hlkA hbimp
      cases fuel with
      | zero => exact absurd hf (Nat.not_lt_zero _)
      | succ fuel =>
          rw [visitTrace_succ] at ha ⊢
          by_cases hc : seen.contains name = true
          · rw [if_pos hc] at ha; simp at ha
          · rw [if_neg hc] at ha ⊢
            cases hlk : List.lookup name m with
            | none =>
                simp only [hlk] at ha
                simp at ha
                subst ha
                rw [hlkA] at hlk
                exact absurd hlk (by simp)
            | some chunk =>
                simp only [hlk] at ha ⊢
                have hk := lookup_mem_manifestKeys hlk
                have hnm : name ∉ seen := fun hm => hc (contains_of_mem hm)
                have hlt := freshKeys_cons_length_lt (m := m) hk hnm
                cases fuel with
                | zero => omega
                | succ f2 =>
                    have hA : ∀ (l ts sn : List String), b ∈ l →
                        b ∈ (List.foldl (traceStep m (f2 + 1)) (ts, sn) l).2 := by
                      intro l
                      induction l with
                      | nil => intro ts sn h; simp at h
                      | cons imp rest ihl =>
                          intro ts sn h
                          rw [List.foldl_cons]
                          rcases List.mem_cons.mp h with rfl | hrest
                          · exact traceFold_snd_mono m (f2 + 1) rest _ b
                              (visitTrace_name_mem m f2 b sn)
                          · exact ihl (ts ++ (visitTrace m (f2 + 1) imp sn).1)
                              ((visitTrace m (f2 + 1) imp sn).2) hrest
                    have hB : ∀ (l ts sn : List String),
                        (freshKeys m sn).length ≤ n →
                        (freshKeys m sn).length < f2 + 1 →
                        a ∈ (List.foldl (traceStep m (f2 + 1)) (ts, sn) l).1 →
                        a ∈ ts ∨ b ∈ (List.foldl (traceStep m (f2 + 1)) (ts, sn) l).2 := by
                      intro l
                      induction l with
                      | nil => intro ts sn _ _ h; exact Or.inl h
                      | cons imp rest ihl =>
                          intro ts sn h1 h2 h3
                          rw [List.foldl_cons] at h3 ⊢
                          have hle : (freshKeys m (visitTrace m (f2 + 1) imp sn).2).length
                              ≤ (freshKeys m sn).length :=
                            freshKeys_length_le
                              (fun x hx => visitTrace_seen_mono m (f2 + 1) imp sn x hx)
                          rcases ihl (ts ++ (visitTrace m (f2 + 1) imp sn).1)
                              ((visitTrace m (f2 + 1) imp sn).2)
                              (le_trans hle h1) (lt_of_le_of_lt hle h2) h3 with hmem | hdone
                          · rcases List.mem_append.mp hmem with hts | hr1
                            · exact Or.inl hts
                            · have hb2 : b ∈ (visitTrace m (f2 + 1) imp sn).2 :=
                                ih (f2 + 1) imp sn h1 h2 a c b hr1 hlkA hbimp
                              exact Or.inr (traceFold_snd_mono m (f2 + 1) rest _ b hb2)
                          · exact Or.inr hdone
                    rcases hB chunk.importList [name] (name :: seen)
                        (by omega) (by omega) ha with h1 | h2
                    · have han : a = name := by simpa using h1
                      subst han
                      rw [hlkA] at hlk
                      injection hlk with hce
                      subst hce
                      exact hA c.importList [a] (a :: seen) hbimp
                    · exact h2

theorem emitJoin_append (m : Manifest) (emit : Chunk → String) :
    ∀ (l1 l2 : List String),
      emitJoin m emit (l1 ++ l2) = emitJoin m emit l1 ++ emitJoin m emit l2 := by
  intro l1 l2
  induction l1 with
  | nil => simp [emitJoin]
  | cons k ks ih =>
      rw [List.cons_append, emitJoin, emitJoin, ih, String.append_assoc]

theorem visitImports_succ (m : Manifest) (emit : Chunk → String) (fuel : Nat)
    (name : String) (seen : List String) (out : String) :
    visitImports m emit (fuel + 1) name ⟨seen, out⟩ =
      if seen.contains name then ⟨seen, out⟩
      else
        match List.lookup name m with
        | none => ⟨name :: seen, out⟩
        | some chunk =>
            chunk.importList.foldl (fun t imp => visitImports m emit fuel imp t)
              ⟨name :: seen, out ++ emit chunk⟩ :=
  rfl

theorem visitImports_eq (m : Manifest) (emit : Chunk → String) :
    ∀ (fuel : Nat) (name : String) (seen : List String) (out : String),
      visitImports m emit fuel name ⟨seen, out⟩
        = ⟨(visitTrace m fuel name seen).2,
           out ++ emitJoin m emit (visitTrace m fuel name seen).1⟩ := by
  intro fuel
  induction fuel with
  | zero =>
      intro name seen out
      simp [visitImports, visitTrace, emitJoin, String.append_empty]
  | succ fuel ih =>
      intro name seen out
      rw [visitImports_succ, visitTrace_succ]
      by_cases hc : seen.contains name = true
      · rw [if_pos hc, if_pos hc]
        simp [emitJoin, String.append_empty]
      · rw [if_neg hc, if_neg hc]
        cases hlk : List.lookup name m with
        | none => simp [emitJoin, emitName, hlk, String.append_empty]
        | some chunk =>
            have hfold : ∀ (l : List String) (sn : List String) (o : String),
                List.foldl (fun t imp => visitImports m emit fuel imp t) ⟨sn, o⟩ l
                  = ⟨(List.foldl (traceStep m fuel) ([], sn) l).2,
                     o ++ emitJoin m emit (List.foldl (traceStep m fuel) ([], sn) l).1⟩ := by
              intro l
              induction l with
              | nil =>
                  intro sn o
                  simp [emitJoin, String.append_empty]
              | cons imp rest ihl =>
                  intro sn o
                  rw [List.foldl_cons, List.foldl_cons]
                  rw [ih imp sn o]
                  rw [ihl ((visitTrace m fuel imp sn).2)
                    (o ++ emitJoin m emit (visitTrace m fuel imp sn).1)]
                  have hstep : traceStep m fuel ([], sn) imp
                      = ((visitTrace m fuel imp sn).1, (visitTrace m fuel imp sn).2) := by
                    rw [traceStep]; simp
                  rw [hstep,
                    traceFold_fst m fuel rest ((visitTrace m fuel imp sn).1)
                      ((visitTrace m fuel imp sn).2),
                    emitJoin_append, String.append_assoc]
            show List.foldl (fun t imp => visitImports m emit fuel imp t)
                  ⟨name :: seen, out ++ emit chunk⟩ chunk.importList
                = ⟨(List.foldl (traceStep m fuel) ([name], name :: seen) chunk.importList).2,
                   out ++ emitJoin m emit
                     (List.foldl (traceStep m fuel) ([name], name :: seen) chunk.importList).1⟩
            rw [hfold chunk.importList (name :: seen) (out ++ emit chunk)]
            rw [traceFold_fst m fuel chunk.importList [name] (name :: seen)]
            rw [emitJoin_append]
            have hone : emitJoin m emit [name] = emit chunk := by
              simp [emitJoin, emitName, hlk, String.append_empty]
            rw [hone, ← String.append_assoc]

theorem freshKeys_nil_lt (m : Manifest) :
    (freshKeys m []).length < m.length + 1 :=
  Nat.lt_succ_of_le (freshKeys_nil_length_le m)

theorem visitTrace_top_stable (m : Manifest) (root : String) {f : Nat}
    (hf : (freshKeys m []).length < f) :
    visitTrace m f root [] = visitTrace m (m.length + 1) root [] :=
  visitTrace_stable m ((freshKeys m []).length) [] root f (m.length + 1)
    le_rfl hf (freshKeys_nil_lt m)

theorem visitOrder_nodup (m : Manifest) (root : String) :
    (m.visitOrder root).Nodup := by
  have h2 := visitTrace_snd_nodup m (m.length + 1) root [] List.nodup_nil
  rw [visitTrace_snd_eq m (m.length + 1) root [], List.append_nil] at h2
  exact List.nodup_reverse.mp h2

theorem mem_visitOrder_of_mem_snd (m : Manifest) (root : String) {x : String}
    (h : x ∈ (visitTrace m (m.length + 1) root []).2) : x ∈ m.visitOrder root := by
  rw [visitTrace_snd_eq m (m.length + 1) root [], List.append_nil, List.mem_reverse] at h
  exact h

theorem visitOrder_head (m : Manifest) (root : String) :
    (m.visitOrder root).head? = some root := by
  rw [Manifest.visitOrder, visitTrace_succ]
  rw [if_neg (by simp : ¬(([] : List String).contains root = true))]
  cases List.lookup root m with
  | none => rfl
  | some chunk =>
      show (List.foldl (traceStep m m.length) ([root], [root]) chunk.importList).1.head? = _
      rw [traceFold_fst m m.length chunk.importList [root] [root]]
      rfl

theorem visitOrder_mem_iff (m : Manifest) (root k : String) :
    k ∈ m.visitOrder root ↔ Reaches m root k := by
  constructor
  · exact visitTrace_fst_reaches m (m.length + 1) root [] k
  · intro h
    induction h with
    | refl =>
        exact mem_visitOrder_of_mem_snd m root (visitTrace_name_mem m m.length root [])
    | tail hab hbc ih =>
        obtain ⟨cb, hlkb, hmemb⟩ := hbc
        exact mem_visitOrder_of_mem_snd m root
          (visitTrace_closed m ((freshKeys m []).length) (m.length + 1) root []
            le_rfl (freshKeys_nil_lt m) _ cb _ ih hlkb hmemb)

theorem visitOrder_closed (m : Manifest) (root : String) :
    ∀ (a : String) (c : Chunk) (b : String),
      a ∈ m.visitOrder root → List.lookup a m = some c → b ∈ c.importList →
      b ∈ m.visitOrder root := by
  intro a c b ha hlk hb
  exact mem_visitOrder_of_mem_snd m root
    (visitTrace_closed m ((freshKeys m []).length) (m.length + 1) root []
      le_rfl (freshKeys_nil_lt m) a c b ha hlk hb)

theorem generateCSS_eq_emitJoin (m : Manifest) (root pre : String) :
    m.GenerateCSS root pre = emitJoin m (cssEmit pre) (m.visitOrder root) := by
  rw [Manifest.GenerateCSS, visitImports_eq m (cssEmit pre) (m.length + 1) root [] ""]
  exact rfl

theorem generatePreload_eq_emitJoin (m : Manifest) (root pre : String) :
    m.GeneratePreloadModules root pre = emitJoin m (preloadLinkTag pre) (m.visitOrder root) := by
  rw [Manifest.GeneratePreloadModules,
    visitImports_eq m (preloadLinkTag pre) (m.length + 1) root [] ""]
  exact rfl

theorem generateCSS_fuel_stable (m : Manifest) (root pre : String) (extra : Nat) :
    (visitImports m (cssEmit pre) (m.length + 1 + extra) root ⟨[], ""⟩).out
      = m.GenerateCSS root pre := by
  rw [Manifest.GenerateCSS,
    visitImports_eq m (cssEmit pre) (m.length + 1 + extra) root [] "",
    visitImports_eq m (cssEmit pre) (m.length + 1) root [] "",
    visitTrace_top_stable m root
      (lt_of_lt_of_le (freshKeys_nil_lt m) (Nat.le_add_right _ _))]

theorem generatePreload_fuel_stable (m : Manifest) (root pre : String) (extra : Nat) :
    (visitImports m (preloadLinkTag pre) (m.length + 1 + extra) root ⟨[], ""⟩).out
      = m.GeneratePreloadModules root pre := by
  rw [Manifest.GeneratePreloadModules,
    visitImports_eq m (preloadLinkTag pre) (m.length + 1 + extra) root [] "",
    visitImports_eq m (preloadLinkTag pre) (m.length + 1) root [] "",
    visitTrace_top_stable m root
      (lt_of_lt_of_le (freshKeys_nil_lt m) (Nat.le_add_right _ _))]

theorem resolveEntryChunk_eq_none {m : Manifest} {e : String}
    (he : e ≠ "")
    (hnm : ∀ p ∈ m, (p.2).isEntry = true → (p.2).src ≠ e) :
    resolveEntryChunk m e = none := by
  rw [resolveEntryChunk, if_neg (fun hbeq => he (eq_of_beq hbeq))]
  refine List.find?_eq_none.mpr ?_
  intro c hc hpred
  rw [Manifest.GetEntryPoints, List.mem_filter] at hc
  obtain ⟨hcm, hce⟩ := hc
  obtain ⟨p, hpm, rfl⟩ := List.mem_map.mp hcm
  exact hnm p hpm hce (eq_of_beq hpred).symm

theorem lookup_setAllImports (m : Manifest) (l : List String) (name : String) :
    List.lookup name (setAllImports m l)
      = (List.lookup name m).map (fun c => { c with importList := l }) := by
  induction m with
  | nil => rfl
  | cons p rest ih =>
      obtain ⟨k, v⟩ := p
      show List.lookup name ((k, { v with importList := l }) :: setAllImports rest l) = _
      rw [List.lookup_cons, List.lookup_cons]
      by_cases hb : (name == k) = true
      · simp [hb]
      · rw [Bool.not_eq_true] at hb
        simp [hb, ih]

theorem emitJoin_congr (m : Manifest) (e1 e2 : Chunk → String)
    (h : ∀ c, e1 c = e2 c) :
    ∀ l, emitJoin m e1 l = emitJoin m e2 l := by
  intro l
  induction l with
  | nil => rfl
  | cons k ks ih =>
      rw [emitJoin, emitJoin, ih]
      congr 1
      rw [emitName, emitName]
      cases List.lookup k m with
      | none => rfl
      | some c => exact h c

theorem cssLinkTags_empty_prefix : ∀ l, cssLinkTags "" l = cssLinkTagsSlash l := by
  intro l
  induction l with
  | nil => rfl
  | cons css rest ih =>
      rw [cssLinkTags, cssLinkTagsSlash, ih, String.append_empty,
        (by decide : ("<link rel=\"stylesheet\" href=\"" ++ "/" : String)
          = "<link rel=\"stylesheet\" href=\"/")]

theorem preloadLinkTag_empty_prefix (c : Chunk) :
    preloadLinkTag "" c = preloadLinkTagSlash c := by
  rw [preloadLinkTag, preloadLinkTagSlash]
  by_cases hf : (c.file != "") = true
  · rw [if_pos hf, if_pos hf, String.append_empty,
      (by decide : ("<link rel=\"modulepreload\" href=\"" ++ "/" : String)
        = "<link rel=\"modulepreload\" href=\"/")]
  · rw [if_neg hf, if_neg hf]

theorem generateModules_empty_prefix (m : Manifest) (k : String) :
    m.GenerateModules k "" = emitName m moduleTagSlash k := by
  rw [Manifest.GenerateModules, emitName]
  cases List.lookup k m with
  | none => rfl
  | some c =>
      simp only [moduleTagSlash]
      by_cases hf : (c.file != "") = true
      · rw [if_pos hf, if_pos hf, String.append_empty,
          (by decide : ("<script type=\"module\" src=\"" ++ "/" : String)
            = "<script type=\"module\" src=\"/")]
      · rw [if_neg hf, if_neg hf]

theorem newHandler_dev (cfg : Config) (f : FSModel) (hdev : cfg.isDev = true) :
    NewHandler { cfg with fs := some f }
      = .ok { fs := f,
              pub := some (match cfg.publicFS with
                           | none => fsSub f "public"
                           | some p => p),
              manifest := none, isDev := cfg.isDev, viteEntry := cfg.viteEntry,
              viteURL := if cfg.viteURL == "" then "http://localhost:5173" else cfg.viteURL,
              viteTemplate := cfg.viteTemplate,
              templates := [(fallbackTemplateName, fallbackHTML)] } := by
  cases hpub : cfg.publicFS with
  | none => simp [NewHandler, hdev, hpub]
  | some p => simp [NewHandler, hdev, hpub]

/-! Claim theorems. -/

/-- C1: for the manifest with chunks `a.js` (file `out/a.js`, an entry
chunk importing `b.js`) and `b.js` (file `out/b.js`, css `[out/b.css]`),
`GenerateCSS "a.js" "/assets"` is exactly one stylesheet link tag with
href `/assets/out/b.css`, and `GeneratePreloadModules "a.js" "/assets"`
is exactly the two modulepreload link tags for `/assets/out/a.js` then
`/assets/out/b.js`, in that order. -/
theorem c1_worked_example_tags :
    manifestAB.GenerateCSS "a.js" "/assets"
        = "<link rel=\"stylesheet\" href=\"/assets/out/b.css\">"
    ∧ manifestAB.GeneratePreloadModules "a.js" "/assets"
        = "<link rel=\"modulepreload\" href=\"/assets/out/a.js\">"
          ++ "<link rel=\"modulepreload\" href=\"/assets/out/b.js\">" := by
  exact ⟨by decide, by decide⟩

/-- C2: for every manifest (cycles and diamonds included) and every root
and prefix, the generators are fuel-independent at the canonical fuel
(the recursion terminates), the visit order has no duplicates, contains
exactly the names reachable from the root along `imports` edges, starts
at the root, and both generated strings are the concatenation of the
per-chunk emissions in that pre-order depth-first visit order (root
first, then each import's subtree in `imports` order, by construction of
`visitTrace`). -/
theorem c2_traversal_cycle_safe (m : Manifest) (root pre : String) :
    (∀ extra : Nat,
        visitTrace m (m.length + 1 + extra) root []
          = visitTrace m (m.length + 1) root [])
    ∧ (∀ extra : Nat,
        (visitImports m (cssEmit pre) (m.length + 1 + extra) root ⟨[], ""⟩).out
          = m.GenerateCSS root pre)
    ∧ (∀ extra : Nat,
        (visitImports m (preloadLinkTag pre) (m.length + 1 + extra) root ⟨[], ""⟩).out
          = m.GeneratePreloadModules root pre)
    ∧ (m.visitOrder root).Nodup
    ∧ (m.visitOrder root).head? = some root
    ∧ (∀ k, k ∈ m.visitOrder root ↔ Reaches m root k)
    ∧ m.GenerateCSS root pre = emitJoin m (cssEmit pre) (m.visitOrder root)
    ∧ m.GeneratePreloadModules root pre
        = emitJoin m (preloadLinkTag pre) (m.visitOrder root) := by
  refine ⟨?_, ?_, ?_, visitOrder_nodup m root, visitOrder_head m root,
    fun k => visitOrder_mem_iff m root k,
    generateCSS_eq_emitJoin m root pre, generatePreload_eq_emitJoin m root pre⟩
  · intro extra
    exact visitTrace_top_stable m root
      (lt_of_lt_of_le (freshKeys_nil_lt m) (Nat.le_add_right _ _))
  · exact generateCSS_fuel_stable m root pre
  · exact generatePreload_fuel_stable m root pre

/-- C3: in production mode, a non-empty requested entry matching no entry
chunk's `src` makes the handler's page render answer with the internal
server error and makes `HTMLFragment` return an error — never a fallback
to an arbitrary entry chunk. -/
theorem c3_unknown_entry_errors (m : Manifest) (e : String) (h : Handler)
    (cfg : Config) (fsm : FSModel) :
    e ≠ "" →
    (∀ p ∈ m, (p.2).isEntry = true → (p.2).src ≠ e) →
    h.isDev = false → h.manifest = some m → h.viteEntry = e →
    cfg.isDev = false → cfg.viteEntry = e → cfg.fs = some fsm →
    fsm ".vite/manifest.json" = some (some m) →
    h.renderPage none = RenderOutcome.internalServerError
    ∧ HTMLFragment cfg = .error "vite: new page data: unable to parse manifest" := by
  intro he hnm hdev hman hent cdev cent cfs copen
  have hres : resolveEntryChunk m e = none := resolveEntryChunk_eq_none he hnm
  constructor
  · simp [Handler.renderPage, hdev, hman, hent, hres]
  · simp [HTMLFragment, cdev, cfs, copen, cent, hres]

/-- C3 witness: the concrete production handler and configuration over the
worked-example manifest, requesting the nonexistent entry `missing.js`. -/
theorem c3_unknown_entry_errors_witness :
    handlerC3.renderPage none = RenderOutcome.internalServerError
    ∧ HTMLFragment configC3
        = .error "vite: new page data: unable to parse manifest" :=
  c3_unknown_entry_errors manifestAB "missing.js" handlerC3 configC3 fsDefaultManifest
    (by decide) (by decide) rfl rfl rfl rfl rfl rfl (by decide)

/-- C4: in development mode with a public filesystem configured, a
non-index cleaned path that opens in the public filesystem is served
from it (the handler `h`, hence its main filesystem, is arbitrary — the
same path may also exist there), and no later dispatch step runs. -/
theorem c4_public_fs_wins (h : Handler) (path : String) :
    h.isDev = true →
    (path == "/" || path == "/index.html") = false →
    h.pubOpens path = true →
    h.serveHTTP path = DispatchOutcome.servedPublic := by
  intro hdev hidx hopen
  rw [Handler.pubOpens] at hopen
  cases hpub : h.pub with
  | none =>
      rw [hpub] at hopen
      exact absurd hopen (by simp)
  | some pfs =>
      rw [hpub] at hopen
      have hopen2 : (pfs path).isSome = true := hopen
      simp [Handler.serveHTTP, Handler.pubOpens, hdev, hidx, hpub, hopen2]

/-- C4 witness: `/logo.png` exists in both the public and the main
filesystem of `handlerC4`; dispatch serves it from the public one. -/
theorem c4_public_fs_wins_witness :
    handlerC4.serveHTTP "/logo.png" = DispatchOutcome.servedPublic :=
  c4_public_fs_wins handlerC4 "/logo.png" rfl (by decide) (by decide)

/-- C6: `GenerateModules` emits at most one module script tag — exactly
one for the root chunk's file when the root key resolves and its file is
non-empty, the empty string when the key is absent or the file empty —
and its result is unchanged under arbitrary rewriting of the
per-chunk lists of statically-imported keys (it never traverses them). -/
theorem c6_generateModules_shallow (m : Manifest) (name pre : String) :
    (m.GenerateModules name pre = ""
      ∨ ∃ c, List.lookup name m = some c ∧ c.file ≠ ""
          ∧ m.GenerateModules name pre
            = "<script type=\"module\" src=\"" ++ pre ++ "/" ++ c.file ++ "\"></script>")
    ∧ (List.lookup name m = none → m.GenerateModules name pre = "")
    ∧ (∀ c, List.lookup name m = some c → c.file = "" → m.GenerateModules name pre = "")
    ∧ (∀ c, List.lookup name m = some c → c.file ≠ "" →
        m.GenerateModules name pre
          = "<script type=\"module\" src=\"" ++ pre ++ "/" ++ c.file ++ "\"></script>")
    ∧ (∀ l, (setAllImports m l).GenerateModules name pre = m.GenerateModules name pre) := by
  refine ⟨?_, ?_, ?_, ?_, ?_⟩
  · cases hlk : List.lookup name m with
    | none =>
        refine Or.inl ?_
        rw [Manifest.GenerateModules, hlk]
    | some c =>
        by_cases hf : (c.file != "") = true
        · refine Or.inr ⟨c, rfl, by simpa using hf, ?_⟩
          rw [Manifest.GenerateModules, hlk]
          simp [hf]
        · refine Or.inl ?_
          rw [Manifest.GenerateModules, hlk]
          simp [hf]
  · intro hlk
    rw [Manifest.GenerateModules, hlk]
  · intro c hlk hf
    rw [Manifest.GenerateModules, hlk]
    simp [hf]
  · intro c hlk hf
    rw [Manifest.GenerateModules, hlk]
    simp [hf]
  · intro l
    rw [Manifest.GenerateModules, Manifest.GenerateModules, lookup_setAllImports]
    cases List.lookup name m with
    | none => rfl
    | some c => rfl

/-- C6 witness: an absent key yields the empty string, a present key with
an empty file yields the empty string, and a present key with a
non-empty file yields exactly its one module script tag. -/
theorem c6_generateModules_shallow_witness :
    manifestAB.GenerateModules "zzz.js" "/p" = ""
    ∧ manifestRML.GenerateModules "r.js" "/p" = ""
    ∧ manifestAB.GenerateModules "a.js" "/p"
        = "<script type=\"module\" src=\"" ++ "/p" ++ "/" ++ chunkA.file ++ "\"></script>" :=
  ⟨(c6_generateModules_shallow manifestAB "zzz.js" "/p").2.1 (by decide),
   (c6_generateModules_shallow manifestRML "r.js" "/p").2.2.1 chunkR (by decide) (by decide),
   (c6_generateModules_shallow manifestAB "a.js" "/p").2.2.2.1 chunkA (by decide) (by decide)⟩

/-- C7: with development mode configured, `HTMLFragment` is identical for
any two asset filesystems (it never opens a manifest), and dev-mode
construction succeeds for any filesystem, stores no manifest, and yields
handlers agreeing on every field not holding a filesystem handle — so
manifest open/parse errors are unreachable. -/
theorem c7_dev_never_reads_manifest (cfg : Config) (f1 f2 : FSModel) :
    cfg.isDev = true →
    HTMLFragment { cfg with fs := some f1 } = HTMLFragment { cfg with fs := some f2 }
    ∧ (∃ h1 h2 : Handler,
        NewHandler { cfg with fs := some f1 } = .ok h1
        ∧ NewHandler { cfg with fs := some f2 } = .ok h2
        ∧ h1.manifest = none ∧ h2.manifest = none
        ∧ h1.isDev = h2.isDev ∧ h1.viteEntry = h2.viteEntry
        ∧ h1.viteURL = h2.viteURL ∧ h1.viteTemplate = h2.viteTemplate
        ∧ h1.templates = h2.templates) := by
  intro hdev
  constructor
  · simp [HTMLFragment, hdev]
  · exact ⟨_, _, newHandler_dev cfg f1 hdev, newHandler_dev cfg f2 hdev,
      rfl, rfl, rfl, rfl, rfl, rfl, rfl⟩

/-- C7 witness: under `configC7` (dev mode) the fragment is the same over
a filesystem where every open fails and one where every open succeeds. -/
theorem c7_dev_never_reads_manifest_witness :
    HTMLFragment { configC7 with fs := some fsEmptyFS }
      = HTMLFragment { configC7 with fs := some fsAllOpen } :=
  (c7_dev_never_reads_manifest configC7 fsEmptyFS fsAllOpen rfl).1

/-- C8: a second registration under an already-used template name fails
with the duplicate-registration error, while the first registration's
entry is still present and unchanged (the failing call returns only the
error and no updated handler). -/
theorem c8_duplicate_registration (h h2 : Handler) (name t1 t2 : String) :
    h.RegisterTemplate name t1 = .ok h2 →
    h2.RegisterTemplate name t2
        = .error ("vite: template already registered: " ++ name)
    ∧ List.lookup name h2.templates = some t1
    ∧ h2.templates = (name, t1) :: h.templates := by
  intro hreg
  rw [Handler.RegisterTemplate] at hreg
  by_cases hl : (List.lookup name h.templates).isSome = true
  · rw [if_pos hl] at hreg
    exact absurd hreg (by simp)
  · rw [if_neg hl] at hreg
    injection hreg with hh
    subst hh
    refine ⟨?_, ?_, rfl⟩
    · simp [Handler.RegisterTemplate, List.lookup_cons]
    · simp [List.lookup_cons]

/-- C8 witness: registering `index.html` twice on a freshly constructed
dev handler. -/
theorem c8_duplicate_registration_witness :
    handlerC8'.RegisterTemplate "index.html" "BBB"
        = .error ("vite: template already registered: " ++ "index.html")
    ∧ List.lookup "index.html" handlerC8'.templates = some "AAA"
    ∧ handlerC8'.templates = ("index.html", "AAA") :: handlerC8.templates :=
  c8_duplicate_registration handlerC8 handlerC8' "index.html" "AAA" "BBB" rfl

/-- C9: both generators' outputs are the concatenated per-chunk emissions
over the visit order; a visited chunk with no CSS entries (for CSS) or
an empty file (for preload) contributes the empty emission; and each
statically-imported key of a visited resolvable chunk is itself visited,
so chunks reachable only through tag-less chunks still get their tags,
in order. -/
theorem c9_silent_chunks_still_traversed (m : Manifest) (root pre : String) :
    m.GenerateCSS root pre = emitJoin m (cssEmit pre) (m.visitOrder root)
    ∧ m.GeneratePreloadModules root pre
        = emitJoin m (preloadLinkTag pre) (m.visitOrder root)
    ∧ (∀ c : Chunk, c.css = [] → cssEmit pre c = "")
    ∧ (∀ c : Chunk, c.file = "" → preloadLinkTag pre c = "")
    ∧ (∀ (k : String) (c : Chunk) (i : String),
        k ∈ m.visitOrder root → List.lookup k m = some c → i ∈ c.importList →
        i ∈ m.visitOrder root) := by
  refine ⟨generateCSS_eq_emitJoin m root pre, generatePreload_eq_emitJoin m root pre,
    ?_, ?_, visitOrder_closed m root⟩
  · intro c hc
    rw [cssEmit, hc]
    rfl
  · intro c hc
    simp [preloadLinkTag, hc]

/-- C9 witness: in `manifestRML` the root and middle chunks emit nothing,
yet `leaf.js` (reachable only through them) is still visited, and the
middle chunk's emissions are empty. -/
theorem c9_silent_chunks_still_traversed_witness :
    "leaf.js" ∈ manifestRML.visitOrder "r.js"
    ∧ cssEmit "/a" chunkMid = ""
    ∧ preloadLinkTag "/a" chunkMid = "" :=
  ⟨(c9_silent_chunks_still_traversed manifestRML "r.js" "/a").2.2.2.2
      "mid.js" chunkMid "leaf.js" (by decide) (by decide) (by decide),
   (c9_silent_chunks_still_traversed manifestRML "r.js" "/a").2.2.1 chunkMid (by decide),
   (c9_silent_chunks_still_traversed manifestRML "r.js" "/a").2.2.2.1 chunkMid (by decide)⟩

/-- C10: every page the handler renders in production mode was generated
with the empty asset prefix (the source `Config` has no prefix field),
so its stylesheet, preload and module URLs are exactly `/` followed by
the manifest-declared output paths. -/
theorem c10_handler_urls_are_slash_paths (h : Handler) (m : Manifest) (pd : PageData) :
    h.isDev = false → h.manifest = some m →
    h.renderPage none = RenderOutcome.rendered pd →
    ∃ c, resolveEntryChunk m h.viteEntry = some c
      ∧ pd.styleSheets
          = emitJoin m (fun ch => cssLinkTagsSlash ch.css) (m.visitOrder c.src)
      ∧ pd.preloadModules = emitJoin m preloadLinkTagSlash (m.visitOrder c.src)
      ∧ pd.modules = emitName m moduleTagSlash c.src := by
  intro hdev hman hrend
  simp only [Handler.renderPage, hdev, hman] at hrend
  revert hrend
  cases hres : resolveEntryChunk m h.viteEntry with
  | none =>
      intro hrend
      exact RenderOutcome.noConfusion hrend
  | some c =>
      intro hrend
      injection hrend with hpd
      subst hpd
      refine ⟨c, rfl, ?_, ?_, ?_⟩
      · show m.GenerateCSS c.src "" = _
        rw [generateCSS_eq_emitJoin]
        exact emitJoin_congr m _ _
          (fun ch => by rw [cssEmit]; exact cssLinkTags_empty_prefix ch.css) _
      · show m.GeneratePreloadModules c.src "" = _
        rw [generatePreload_eq_emitJoin]
        exact emitJoin_congr m _ _ (fun ch => preloadLinkTag_empty_prefix ch) _
      · show m.GenerateModules c.src "" = _
        exact generateModules_empty_prefix m c.src

/-- C10 witness: the production handler over the worked-example manifest
with entry `a.js` renders `pageC10`, whose URLs are `/`-prefixed
manifest paths. -/
theorem c10_handler_urls_are_slash_paths_witness :
    ∃ c, resolveEntryChunk manifestAB handlerC10.viteEntry = some c
      ∧ pageC10.styleSheets
          = emitJoin manifestAB (fun ch => cssLinkTagsSlash ch.css)
              (manifestAB.visitOrder c.src)
      ∧ pageC10.preloadModules
          = emitJoin manifestAB preloadLinkTagSlash (manifestAB.visitOrder c.src)
      ∧ pageC10.modules = emitName manifestAB moduleTagSlash c.src :=
  c10_handler_urls_are_slash_paths handlerC10 manifestAB pageC10 rfl rfl rfl

/-- C5 (evaluation at the failing input): with a valid manifest only at
the configured non-default path `custom/manifest.json`, `NewHandler`
succeeds and loads the manifest from the configured path, but
`HTMLFragment` ignores `Config.ViteManifest`, opens the hard-coded
default path `.vite/manifest.json` instead, and fails with the
open-manifest error — contradicting the `ViteManifest` field's own
documentation. -/
theorem c5_fragment_ignores_configured_path :
    NewHandler configCustom
        = .ok { fs := fsCustomOnly, pub := none, manifest := some manifestAB,
                isDev := false, viteEntry := "", viteURL := "",
                viteTemplate := 0,
                templates := [(fallbackTemplateName, fallbackHTML)] }
    ∧ HTMLFragment configCustom = .error "vite: open manifest" :=
  ⟨rfl, rfl⟩
